import Mathlib

/-!
Shallow embedding of `src/background.js` from the claude-artifact-exporter
repository, together with theorems settling the frozen claims C1-C10.

The JavaScript source is a single Chrome extension background script.  The
embedding models, faithfully to the source:

* `extractArtifacts` - the regex scan
  `/<antArtifact[^>]*>([\s\S]*?)<\/antArtifact>/g` together with the
  per-match attribute lookups `fullTag.match(/title="([^"]*)/)` and
  `fullTag.match(/language="([^"]*)/)`, realised as an explicit
  left-to-right scanner over `List Char` (leftmost match, lazy body up to
  the first closing tag, attribute search over the whole matched region).
* `getFileExtension` - the fixed language-to-extension lookup table.
* `getUniqueFileName` - sanitization via `/[^\w\-._/]+/g` replacement
  (each maximal run of disallowed characters becomes one underscore),
  path-like title splitting, and the numeric-suffix collision loop over a
  registry of used names.
* `processConversation` - the per-message normalization of the three
  historical body shapes and the artifact write loop.
* the `chrome.runtime.onMessage` orchestrator loop - progress events,
  per-conversation try/catch, the pacing delay, and the final response,
  modelled as a fold producing an explicit event trace and outcome.
-/

namespace ArtifactExporter

/-! ## Tag parser (`extractArtifacts`, lines 40-61) -/

structure Artifact where
  title : String
  language : String
  content : String
deriving DecidableEq, Repr

/-- The literal `<antArtifact` that starts an opening tag (the regex prefix
before `[^>]*>`). -/
def openLit : List Char := ("<antArtifact").data

/-- The literal closing tag `</antArtifact>`. -/
def closeLit : List Char := ("</antArtifact>").data

/-- The literal `title="` searched by `fullTag.match(/title="([^"]*)/)`. -/
def titleLit : List Char := ("title=\"").data

/-- The literal `language="` searched by
`fullTag.match(/language="([^"]*)/)`. -/
def langLit : List Char := ("language=\"").data

/-- First-occurrence splitter: `splitOnFirst pat s = some (pre, post)` when
`s = pre ++ pat ++ post` with `pre` shortest possible, `none` when `pat`
does not occur in `s`.  This is the leftmost-match primitive of the regex
engine. -/
def splitOnFirst (pat : List Char) : List Char → Option (List Char × List Char)
  | [] => if pat = [] then some ([], []) else none
  | c :: cs =>
    if pat.isPrefixOf (c :: cs) then some ([], (c :: cs).drop pat.length)
    else
      match splitOnFirst pat cs with
      | some (pre, post) => some (c :: pre, post)
      | none => none

/-- Whether `pat` occurs as a contiguous sublist of `s`. -/
def containsSub (pat s : List Char) : Bool := (splitOnFirst pat s).isSome

/-- `String.prototype.trim()`: strip whitespace from both ends. -/
def trimChars (l : List Char) : List Char :=
  ((l.dropWhile Char.isWhitespace).reverse.dropWhile Char.isWhitespace).reverse

/-- String-level trim. -/
def trimS (s : String) : String := ⟨trimChars s.data⟩

/-- `fullTag.match(/title="([^"]*)/)`-style attribute lookup: find the first
occurrence of `pat` anywhere in `full` and capture the following maximal
run of non-quote characters (no closing quote is required by the regex). -/
def matchAttr (pat full : List Char) : Option (List Char) :=
  match splitOnFirst pat full with
  | none => none
  | some (_, rest) => some (rest.takeWhile (fun c => c != '"'))

/-- One regex match step plus the `while ((match = ...exec(text)))` loop of
`extractArtifacts`, with structural fuel (each match consumes at least the
opening literal, so `length + 1` fuel always suffices).

A match consists of the literal `<antArtifact`, then `[^>]*` (a maximal run
of non-`>` characters), then `>`, then the lazy body up to the first
`</antArtifact>`.  `fullTag` is the whole matched region (`match[0]`), and
the attribute lookups run over it; the body is trimmed into `content`. -/
def scanArtifacts : Nat → List Char → List Artifact
  | 0, _ => []
  | fuel + 1, s =>
    match splitOnFirst openLit s with
    | none => []
    | some (_, afterLit) =>
      let attrs := afterLit.takeWhile (fun c => c != '>')
      match afterLit.dropWhile (fun c => c != '>') with
      | [] => []
      | _ :: afterGt =>
        match splitOnFirst closeLit afterGt with
        | none => []
        | some (body, rest) =>
          let fullTag := openLit ++ attrs ++ '>' :: (body ++ closeLit)
          { title := match matchAttr titleLit fullTag with
                     | some t => ⟨t⟩
                     | none => "Untitled"
            language := match matchAttr langLit fullTag with
                        | some l => ⟨l⟩
                        | none => "txt"
            content := ⟨trimChars body⟩ } :: scanArtifacts fuel rest

/-- `extractArtifacts(text)` (lines 41-61). -/
def extractArtifacts (text : String) : List Artifact :=
  scanArtifacts (text.data.length + 1) text.data

/-! ## Language-to-extension table (`getFileExtension`, lines 63-92) -/

def languageToExt : List (String × String) :=
  [("javascript", ".js"), ("html", ".html"), ("css", ".css"),
   ("python", ".py"), ("java", ".java"), ("c", ".c"), ("cpp", ".cpp"),
   ("ruby", ".rb"), ("php", ".php"), ("swift", ".swift"), ("go", ".go"),
   ("rust", ".rs"), ("typescript", ".ts"), ("shell", ".sh"),
   ("sql", ".sql"), ("kotlin", ".kt"), ("scala", ".scala"), ("r", ".r"),
   ("matlab", ".m"), ("json", ".json"), ("xml", ".xml"), ("yaml", ".yaml"),
   ("markdown", ".md"), ("text", ".txt")]

/-- `language.toLowerCase()` on the character list. -/
def toLowerStr (s : String) : String := ⟨s.data.map Char.toLower⟩

/-- `getFileExtension(language)`: lookup with `.txt` default. -/
def getFileExtension (language : String) : String :=
  match List.lookup (toLowerStr language) languageToExt with
  | some ext => ext
  | none => ".txt"

/-! ## Sanitization (`.replace(/[^\w\-._/]+/g, '_')`, lines 96 and 130) -/

/-- Characters of the JS class `[\w\-._/]` (`\w` is ASCII
`[A-Za-z0-9_]`). -/
def allowedTitleChar (c : Char) : Bool :=
  c.isAlpha || c.isDigit || c = '_' || c = '-' || c = '.' || c = '/'

/-- Characters of the JS class `[\w\-._]` used for the conversation folder
name (no `/`). -/
def allowedFolderChar (c : Char) : Bool :=
  c.isAlpha || c.isDigit || c = '_' || c = '-' || c = '.'

/-- `.replace(/[^...]+/g, '_')`: each maximal run of disallowed characters
becomes a single underscore.  The Boolean flag records whether the previous
character was part of a disallowed run already replaced. -/
def collapseAux (allowed : Char → Bool) : Bool → List Char → List Char
  | _, [] => []
  | prevBad, c :: cs =>
    if allowed c then c :: collapseAux allowed false cs
    else if prevBad then collapseAux allowed true cs
    else '_' :: collapseAux allowed true cs

def collapseRuns (allowed : Char → Bool) (l : List Char) : List Char :=
  collapseAux allowed false l

/-- `title.replace(/[^\w\-._/]+/g, '_')` (line 96). -/
def sanitizeTitle (s : String) : String := ⟨collapseRuns allowedTitleChar s.data⟩

/-- `(conversation.name || 'Untitled').replace(/[^\w\-._]+/g, '_')`
(line 130). -/
def sanitizeFolder (s : String) : String := ⟨collapseRuns allowedFolderChar s.data⟩

/-- Modelled from the spec sentence of claim C4 (not from the source): the
character-by-character sanitization the claim describes, replacing every
individual disallowed character with one underscore. -/
def specPerCharSanitize (s : String) : String :=
  ⟨s.data.map (fun c => if allowedTitleChar c then c else '_')⟩

/-! ## Unique file names (`getUniqueFileName`, lines 95-119) -/

/-- Decimal digit character. -/
def digitCh (d : Nat) : Char := Char.ofNat (48 + d)

/-- Decimal representation helper, with structural fuel (`n` itself
suffices since `n / 10 < n` for `n > 0`). -/
def decReprAux : Nat → Nat → List Char
  | 0, _ => []
  | fuel + 1, n =>
    if n = 0 then [] else decReprAux fuel (n / 10) ++ [digitCh (n % 10)]

/-- JS `${counter}`: the usual decimal representation of a number. -/
def decRepr (n : Nat) : String := if n = 0 then "0" else ⟨decReprAux n n⟩

/-- The candidate file name tried at loop iteration `c`: the bare
`baseName + extension` first (`c = 0`), then `baseName_c + extension`. -/
def candidateName (base extension : String) (c : Nat) : String :=
  if c = 0 then base ++ extension else base ++ "_" ++ decRepr c ++ extension

/-- The `while (usedNames.has(fileName))` loop: try candidates in order and
return the first one not in the registry.  Fuel `usedNames.card + 1`
always suffices (candidates are pairwise distinct, see
`candidateName_injective`). -/
def findFreeAux (base extension : String) (used : Finset String) : Nat → Nat → String
  | 0, c => candidateName base extension c
  | fuel + 1, c =>
    if candidateName base extension c ∈ used then
      findFreeAux base extension used fuel (c + 1)
    else candidateName base extension c

/-- JS `split('/')` on the character list (right-to-left recursion;
`"a//b"` yields `["a", "", "b"]`, `""` yields `[""]`). -/
def splitOnSlash : List Char → List (List Char)
  | [] => [[]]
  | c :: cs =>
    match splitOnSlash cs with
    | [] => [[]]
    | p :: ps => if c = '/' then [] :: p :: ps else (c :: p) :: ps

def splitSlash (s : String) : List String := (splitOnSlash s.data).map (fun l => ⟨l⟩)

/-- JS `Array.prototype.join('/')`. -/
def joinSlash : List String → String
  | [] => ""
  | [p] => p
  | p :: q :: ps => p ++ "/" ++ joinSlash (q :: ps)

/-- `getUniqueFileName(title, language, usedNames, conversationFolder)`
(lines 95-119).  Returns the chosen path and the registry after
`usedNames.add(fileName)`. -/
def getUniqueFileName (title language : String) (usedNames : Finset String)
    (conversationFolder : String) : String × Finset String :=
  let baseName0 := sanitizeTitle title
  let extension := getFileExtension language
  let parts := splitSlash baseName0
  let baseName :=
    if parts.length > 1 then
      conversationFolder ++ "/" ++ joinSlash parts.dropLast ++ "/" ++ parts.getLastD ""
    else conversationFolder ++ "/" ++ baseName0
  let fileName := findFreeAux baseName extension usedNames (usedNames.card + 1) 0
  (fileName, insert fileName usedNames)

/-- A sequence of allocation calls against one registry: each request is a
`(title, language, conversationFolder)` triple; returns the allocated paths
in order and the final registry. -/
def runAllocs : List (String × String × String) → Finset String → List String × Finset String
  | [], used => ([], used)
  | r :: rs, used =>
    let p := getUniqueFileName r.1 r.2.1 used r.2.2
    let q := runAllocs rs p.2
    (p.1 :: q.1, q.2)

/-! ## Messages and conversations (`processConversation`, lines 121-172) -/

/-- One entry of a new-format `content` array; `text` is absent or a
string (`if (content.text)` checks truthiness, so the empty string counts
as absent). -/
structure ContentBlock where
  text : Option String
deriving DecidableEq, Repr

/-- The possible shapes of `message.content`: a string (old format), an
array of content blocks (new format), or some other truthy value (in which
case the code falls back to the even older `message.text` field). -/
inductive MsgContent where
  | str (s : String)
  | arr (blocks : List ContentBlock)
  | obj
deriving DecidableEq, Repr

structure ChatMessage where
  sender : String
  content : Option MsgContent
  text : Option String
deriving DecidableEq, Repr

/-- JS truthiness of an optional string field (absent or `''` is falsy). -/
def optTruthy : Option String → Bool
  | none => false
  | some s => !(s == "")

/-- JS truthiness of `message.content` (absent, `null` and `''` are falsy;
arrays and objects are truthy). -/
def contentTruthy : Option MsgContent → Bool
  | none => false
  | some (.str s) => !(s == "")
  | some (.arr _) => true
  | some .obj => true

/-- The `for (const content of message.content) if (content.text)
messageText += content.text` accumulation. -/
def blockConcat (bs : List ContentBlock) : String :=
  bs.foldl (fun acc b => if optTruthy b.text then acc ++ b.text.getD "" else acc) ""

/-- The `messageText` computed by the three-branch format dispatch
(lines 136-151). -/
def messageTextOf (m : ChatMessage) : String :=
  match m.content with
  | some (.arr bs) => blockConcat bs
  | some (.str s) => s
  | some .obj => if optTruthy m.text then m.text.getD "" else ""
  | none => ""

/-- The artifacts extracted from one message: the sender/content guard
(line 134), the format dispatch, the `if (messageText)` truthiness check,
and `extractArtifacts`. -/
def messageArtifacts (m : ChatMessage) : List Artifact :=
  if m.sender == "assistant" && contentTruthy m.content then
    let t := messageTextOf m
    if t == "" then [] else extractArtifacts t
  else []

/-- A message whose body is an old-format plain string. -/
def strMsg (s : String) (legacy : Option String) : ChatMessage :=
  { sender := "assistant", content := some (MsgContent.str s), text := legacy }

/-- A message whose body is a new-format content-block list. -/
def arrMsg (bs : List ContentBlock) (legacy : Option String) : ChatMessage :=
  { sender := "assistant", content := some (MsgContent.arr bs), text := legacy }

/-- A message with some other truthy `content`, carrying only the legacy
direct text field. -/
def objMsg (legacy : Option String) : ChatMessage :=
  { sender := "assistant", content := some MsgContent.obj, text := legacy }

/-- A fetched full conversation: `name` and `chat_messages` (absent when
the guard `if (!conversation.chat_messages)` fires). -/
structure FullConv where
  name : Option String
  chat_messages : Option (List ChatMessage)
deriving DecidableEq, Repr

/-- `conv.name || 'Untitled'`. -/
def nameOrUntitled : Option String → String
  | none => "Untitled"
  | some s => if s == "" then "Untitled" else s

/-- `processConversation(conversation, zip, usedNames)` (lines 121-172):
returns `(artifactCount, zip', usedNames')` where the zip is modelled as
the list of `(path, content)` entries written so far. -/
def processConversation (conversation : FullConv) (zip : List (String × String))
    (usedNames : Finset String) : Nat × List (String × String) × Finset String :=
  match conversation.chat_messages with
  | none => (0, zip, usedNames)
  | some msgs =>
    let conversationName := sanitizeFolder (nameOrUntitled conversation.name)
    msgs.foldl
      (fun acc m =>
        (messageArtifacts m).foldl
          (fun acc2 a =>
            let p := getUniqueFileName a.title a.language acc2.2.2 conversationName
            (acc2.1 + 1, acc2.2.1 ++ [(p.1, a.content)], p.2))
          acc)
      (0, zip, usedNames)

/-! ## Export orchestrator (`chrome.runtime.onMessage` listener,
lines 186-292) -/

/-- One entry of the conversation index. -/
structure Conversation where
  name : Option String
  uuid : String
deriving DecidableEq, Repr

/-- Observable events of a job run: the `exportProgress` message sent
before the fetch, the fetch attempt itself, and the
`await new Promise(resolve => setTimeout(resolve, 500))` pacing delay. -/
inductive Event where
  | progress (current total : Nat) (conversationName : String)
  | fetchAttempt (uuid : String)
  | delayEv
deriving DecidableEq, Repr

def isDelayEv : Event → Bool
  | .delayEv => true
  | _ => false

def isProgressEv : Event → Bool
  | .progress _ _ _ => true
  | _ => false

/-- The mutable state of the per-conversation loop (lines 196-236). -/
structure LoopSt where
  used : Finset String
  zip : List (String × String)
  totalArtifacts : Nat
  convsWith : Nat
  processed : Nat
  events : List Event

def initLoopSt : LoopSt :=
  { used := ∅, zip := [], totalArtifacts := 0, convsWith := 0,
    processed := 0, events := [] }

/-- One iteration of `for (const conv of conversations)` (lines 203-236):
increment `processedCount`, emit the progress event, attempt the fetch; on
success process the conversation, update the counters, and await the
pacing delay; on error (the catch block) continue with no delay. -/
def stepConv (fetch : String → Except String FullConv) (total : Nat)
    (st : LoopSt) (conv : Conversation) : LoopSt :=
  let pc := st.processed + 1
  let evs := st.events ++
    [Event.progress pc total (nameOrUntitled conv.name), Event.fetchAttempt conv.uuid]
  match fetch conv.uuid with
  | Except.error _ => { st with processed := pc, events := evs }
  | Except.ok full =>
    let r := processConversation full st.zip st.used
    let updated :=
      if r.1 > 0 then (st.totalArtifacts + r.1, st.convsWith + 1)
      else (st.totalArtifacts, st.convsWith)
    { used := r.2.2, zip := r.2.1, totalArtifacts := updated.1,
      convsWith := updated.2, processed := pc,
      events := evs ++ [Event.delayEv] }

def runLoop (fetch : String → Except String FullConv) (total : Nat)
    (convs : List Conversation) (st : LoopSt) : LoopSt :=
  convs.foldl (stepConv fetch total) st

/-- The object passed to `sendResponse` (with count fields defaulted to 0
on the failure shapes, which omit them). -/
structure SendResponse where
  success : Bool
  error : Option String
  artifactCount : Nat
  conversationCount : Nat
  totalConversations : Nat
deriving DecidableEq, Repr

/-- The outcome of one job: the event trace, the response, and whether the
archive finalization/download path (`zip.generateAsync` onwards) was
entered. -/
structure ExportOutcome where
  events : List Event
  response : SendResponse
  finalized : Bool
deriving DecidableEq, Repr

def noArtifactsMsg : String := "No artifacts found in any conversations"

/-- The whole `exportArtifacts` handler: index fetch (outer try/catch),
the loop, the zero-artifact early return, and the success response.  The
download collaborator is modelled as succeeding. -/
def runExportJob (index : Except String (List Conversation))
    (fetch : String → Except String FullConv) : ExportOutcome :=
  match index with
  | Except.error e =>
    { events := [],
      response := { success := false, error := some e, artifactCount := 0,
                    conversationCount := 0, totalConversations := 0 },
      finalized := false }
  | Except.ok convs =>
    let st := runLoop fetch convs.length convs initLoopSt
    if st.totalArtifacts = 0 then
      { events := st.events,
        response := { success := false, error := some noArtifactsMsg,
                      artifactCount := 0, conversationCount := 0,
                      totalConversations := 0 },
        finalized := false }
    else
      { events := st.events,
        response := { success := true, error := none,
                      artifactCount := st.totalArtifacts,
                      conversationCount := st.convsWith,
                      totalConversations := convs.length },
        finalized := true }

/-- The expected event trace of the loop starting from processed count
`pc`: for each entry, a progress event and a fetch attempt, then a pacing
delay exactly when the fetch succeeded. -/
def expectedEvents (fetch : String → Except String FullConv) (total : Nat) :
    Nat → List Conversation → List Event
  | _, [] => []
  | pc, c :: cs =>
    [Event.progress (pc + 1) total (nameOrUntitled c.name), Event.fetchAttempt c.uuid] ++
    (match fetch c.uuid with
     | Except.error _ => []
     | Except.ok _ => [Event.delayEv]) ++
    expectedEvents fetch total (pc + 1) cs

/-- Whether a fetch result is a success. -/
def fetchOk : Except String FullConv → Bool
  | Except.ok _ => true
  | Except.error _ => false

end ArtifactExporter

namespace ArtifactExporter

/-- A pattern with no nonempty proper border: no nonzero shift lets the
pattern overlap itself.  `</antArtifact>` has this property. -/
def borderFree (pat : List Char) : Prop :=
  ∀ k, k < pat.length → 0 < k → pat.drop k ≠ pat.take (pat.length - k)

/-! ## Concrete scenario used by the partial-failure claims -/

/-- A three-entry index. -/
def demoIndex : List Conversation :=
  [{ name := some ("Conv1"), uuid := "u1" },
   { name := some ("Conv2"), uuid := "u2" },
   { name := some ("Conv3"), uuid := "u3" }]

def demoMsg1 : ChatMessage :=
  { sender := "assistant",
    content := some (MsgContent.str ("<antArtifact title=\"a\">x</antArtifact>")),
    text := none }

def demoMsg3 : ChatMessage :=
  { sender := "assistant",
    content := some (MsgContent.str ("<antArtifact title=\"a\">y</antArtifact>")),
    text := none }

def demoConv1 : FullConv := { name := some ("Conv1"), chat_messages := some [demoMsg1] }

def demoConv3 : FullConv := { name := some ("Conv3"), chat_messages := some [demoMsg3] }

/-- A fetch oracle for which only the second conversation's fetch throws;
conversations 1 and 3 each carry one artifact. -/
def demoFetch : String → Except String FullConv := fun u =>
  if u == "u1" then Except.ok demoConv1
  else if u == "u3" then Except.ok demoConv3
  else Except.error ("Failed to fetch conversation: 500")

/-- A two-entry index whose first fetch fails, used to exhibit the missing
pacing delay after a failed entry. -/
def failIndex : List Conversation :=
  [{ name := some ("A"), uuid := "v1" }, { name := some ("B"), uuid := "v2" }]

def emptyFull : FullConv := { name := some ("B"), chat_messages := none }

def failFirstFetch : String → Except String FullConv := fun u =>
  if u == "v1" then Except.error ("Failed to fetch conversation: 500")
  else Except.ok emptyFull

/-! ## Allocator lemmas: distinct candidates, fresh names -/

theorem decReprAux_zero_eq_nil (f : Nat) : decReprAux f 0 = [] := by
  cases f <;> simp [decReprAux]

theorem decReprAux_ne_nil {f n : Nat} (h0 : 0 < n) (hf : n ≤ f) :
    decReprAux f n ≠ [] := by
  cases f with
  | zero => omega
  | succ f => simp [decReprAux, Nat.pos_iff_ne_zero.mp h0]

theorem digitCh_inj : ∀ a, a < 10 → ∀ b, b < 10 → digitCh a = digitCh b → a = b := by
  decide

theorem decReprAux_inj : ∀ f1 n f2 m, n ≤ f1 → m ≤ f2 → 0 < n → 0 < m →
    decReprAux f1 n = decReprAux f2 m → n = m := by
  intro f1
  induction f1 with
  | zero => intro n f2 m h1 _ h3 _ _; omega
  | succ f1 ih =>
    intro n f2 m h1 h2 h3 h4 heq
    cases f2 with
    | zero => omega
    | succ f2 =>
      simp only [decReprAux, if_neg (Nat.pos_iff_ne_zero.mp h3),
        if_neg (Nat.pos_iff_ne_zero.mp h4)] at heq
      have hrev := congrArg List.reverse heq
      simp only [List.reverse_append, List.reverse_cons, List.reverse_nil,
        List.nil_append, List.singleton_append, List.cons.injEq] at hrev
      obtain ⟨hd, tl⟩ := hrev
      have hmod : n % 10 = m % 10 :=
        digitCh_inj _ (Nat.mod_lt _ (by norm_num)) _ (Nat.mod_lt _ (by norm_num)) hd
      have hinit : decReprAux f1 (n / 10) = decReprAux f2 (m / 10) := by
        have := congrArg List.reverse tl
        simpa using this
      have hnd : n / 10 < n := Nat.div_lt_self h3 (by norm_num)
      have hmd : m / 10 < m := Nat.div_lt_self h4 (by norm_num)
      by_cases hn : n / 10 = 0
      · by_cases hm : m / 10 = 0
        · omega
        · exfalso
          rw [hn, decReprAux_zero_eq_nil] at hinit
          exact decReprAux_ne_nil (Nat.pos_of_ne_zero hm) (by omega) hinit.symm
      · by_cases hm : m / 10 = 0
        · exfalso
          rw [hm, decReprAux_zero_eq_nil] at hinit
          exact decReprAux_ne_nil (Nat.pos_of_ne_zero hn) (by omega) hinit
        · have := ih (n / 10) f2 (m / 10) (by omega) (by omega)
            (Nat.pos_of_ne_zero hn) (Nat.pos_of_ne_zero hm) hinit
          omega

theorem decRepr_inj_pos {n m : Nat} (hn : 0 < n) (hm : 0 < m)
    (h : decRepr n = decRepr m) : n = m := by
  rw [decRepr, decRepr, if_neg (Nat.pos_iff_ne_zero.mp hn),
    if_neg (Nat.pos_iff_ne_zero.mp hm)] at h
  exact decReprAux_inj n n m m le_rfl le_rfl hn hm (congrArg String.data h)

theorem decRepr_length_pos {n : Nat} (h : 0 < n) : 0 < (decRepr n).length := by
  rw [decRepr, if_neg (Nat.pos_iff_ne_zero.mp h)]
  rw [String.length_mk]
  exact List.length_pos.mpr (decReprAux_ne_nil h le_rfl)

theorem candidateName_inj (base ext : String) :
    ∀ i j, candidateName base ext i = candidateName base ext j → i = j := by
  have hlen : ∀ j, candidateName base ext 0 ≠ candidateName base ext (j + 1) := by
    intro j h
    have hL := congrArg String.length h
    rw [candidateName, candidateName, if_pos rfl, if_neg (Nat.succ_ne_zero j)] at hL
    simp only [String.length_append] at hL
    have := decRepr_length_pos (show 0 < j + 1 by omega)
    have h1 : ("_" : String).length = 1 := rfl
    omega
  intro i j h
  match i, j with
  | 0, 0 => rfl
  | 0, j + 1 => exact absurd h (hlen j)
  | i + 1, 0 => exact absurd h.symm (hlen i)
  | i + 1, j + 1 =>
    have hd := congrArg String.data h
    simp only [candidateName, if_neg (Nat.succ_ne_zero i), if_neg (Nat.succ_ne_zero j),
      String.data_append, List.append_assoc] at hd
    have hd2 := List.append_cancel_left hd
    have hd3 := List.append_cancel_left hd2
    have hd4 := List.append_cancel_right hd3
    have : decRepr (i + 1) = decRepr (j + 1) := String.ext hd4
    have := decRepr_inj_pos (Nat.succ_pos i) (Nat.succ_pos j) this
    omega

theorem findFreeAux_not_mem (base ext : String) (used : Finset String) :
    ∀ fuel c, (∃ j, c ≤ j ∧ j < c + fuel ∧ candidateName base ext j ∉ used) →
      findFreeAux base ext used fuel c ∉ used := by
  intro fuel
  induction fuel with
  | zero => intro c h; obtain ⟨j, h1, h2, _⟩ := h; omega
  | succ fuel ih =>
    intro c h
    rw [findFreeAux]
    by_cases hc : candidateName base ext c ∈ used
    · rw [if_pos hc]
      apply ih
      obtain ⟨j, h1, h2, h3⟩ := h
      refine ⟨j, ?_, by omega, h3⟩
      rcases Nat.eq_or_lt_of_le h1 with h4 | h4
      · exact absurd (h4 ▸ hc) h3
      · omega
    · rw [if_neg hc]; exact hc

theorem exists_free_candidate (base ext : String) (used : Finset String) :
    ∃ j, j < used.card + 1 ∧ candidateName base ext j ∉ used := by
  by_contra hcon
  push_neg at hcon
  have hmaps : ∀ j ∈ Finset.range (used.card + 1), candidateName base ext j ∈ used :=
    fun j hj => hcon j (Finset.mem_range.mp hj)
  have hcard : used.card < (Finset.range (used.card + 1)).card := by
    rw [Finset.card_range]; omega
  obtain ⟨i, _, j, _, hij, heq⟩ :=
    Finset.exists_ne_map_eq_of_card_lt_of_maps_to hcard hmaps
  exact hij (candidateName_inj base ext i j heq)

theorem getUniqueFileName_fst_not_mem (t l : String) (used : Finset String) (f : String) :
    (getUniqueFileName t l used f).1 ∉ used := by
  rw [getUniqueFileName]
  apply findFreeAux_not_mem
  obtain ⟨j, hj1, hj2⟩ := exists_free_candidate _ _ used
  exact ⟨j, by omega, by omega, hj2⟩

theorem getUniqueFileName_snd (t l : String) (used : Finset String) (f : String) :
    (getUniqueFileName t l used f).2 = insert (getUniqueFileName t l used f).1 used := rfl

theorem runAllocs_spec (reqs : List (String × String × String)) :
    ∀ used : Finset String,
      (runAllocs reqs used).1.Nodup ∧
      (∀ p ∈ (runAllocs reqs used).1, p ∈ (runAllocs reqs used).2) ∧
      used ⊆ (runAllocs reqs used).2 ∧
      (∀ p ∈ (runAllocs reqs used).1, p ∉ used) := by
  induction reqs with
  | nil => intro used; simp [runAllocs]
  | cons r rs ih =>
    intro used
    obtain ⟨ihN, ihM, ihS, ihF⟩ := ih (getUniqueFileName r.1 r.2.1 used r.2.2).2
    have hfst := getUniqueFileName_fst_not_mem r.1 r.2.1 used r.2.2
    have hsnd := getUniqueFileName_snd r.1 r.2.1 used r.2.2
    have hself : (getUniqueFileName r.1 r.2.1 used r.2.2).1 ∈
        (getUniqueFileName r.1 r.2.1 used r.2.2).2 := by
      rw [hsnd]; exact Finset.mem_insert_self _ _
    refine ⟨?_, ?_, ?_, ?_⟩
    · rw [runAllocs]
      refine List.nodup_cons.mpr ⟨?_, ihN⟩
      intro hmem
      exact ihF _ hmem (hsnd ▸ Finset.mem_insert_self _ _)
    · intro p hp
      rw [runAllocs] at hp ⊢
      rcases List.mem_cons.mp hp with h | h
      · rw [h]; exact ihS hself
      · exact ihM p h
    · intro p hp
      rw [runAllocs]
      exact ihS (hsnd ▸ Finset.mem_insert_of_mem hp)
    · intro p hp hpu
      rw [runAllocs] at hp
      rcases List.mem_cons.mp hp with h | h
      · exact hfst (h ▸ hpu)
      · exact ihF p h (hsnd ▸ Finset.mem_insert_of_mem hpu)

end ArtifactExporter

namespace ArtifactExporter

/-! ## Tag parser lemmas -/

theorem scanArtifacts_nil (fuel : Nat) : scanArtifacts fuel [] = [] := by
  cases fuel with
  | zero => rfl
  | succ f =>
    rw [scanArtifacts]
    rw [show splitOnFirst openLit [] = none from by decide]

theorem splitOnFirst_sound (pat : List Char) :
    ∀ s pre post, splitOnFirst pat s = some (pre, post) → s = pre ++ pat ++ post := by
  intro s
  induction s with
  | nil =>
    intro pre post h
    rw [splitOnFirst] at h
    by_cases hp : pat = []
    · rw [if_pos hp] at h
      cases h
      simp [hp]
    · rw [if_neg hp] at h
      cases h
  | cons c cs ih =>
    intro pre post h
    rw [splitOnFirst] at h
    by_cases hp : pat.isPrefixOf (c :: cs)
    · rw [if_pos hp] at h
      cases h
      obtain ⟨t, ht⟩ := List.isPrefixOf_iff_prefix.mp hp
      simp [← ht, List.drop_left]
    · rw [if_neg hp] at h
      cases hrec : splitOnFirst pat cs with
      | none => rw [hrec] at h; cases h
      | some pr =>
        obtain ⟨pre', post'⟩ := pr
        rw [hrec] at h
        simp only [Option.some.injEq, Prod.mk.injEq] at h
        obtain ⟨h1, h2⟩ := h
        subst h1
        subst h2
        have := ih pre' post' hrec
        simp [this]

theorem splitOnFirst_isSome (pat : List Char) :
    ∀ b a, (splitOnFirst pat (b ++ pat ++ a)).isSome = true := by
  intro b
  induction b with
  | nil =>
    intro a
    cases pat with
    | nil => cases a <;> simp [splitOnFirst]
    | cons p ps =>
      rw [List.nil_append, List.cons_append, splitOnFirst]
      have hpre : (p :: ps).isPrefixOf (p :: (ps ++ a)) = true :=
        List.isPrefixOf_iff_prefix.mpr (List.prefix_append (p :: ps) a)
      rw [if_pos hpre]
      rfl
  | cons x b ih =>
    intro a
    rw [List.cons_append, List.cons_append, splitOnFirst]
    by_cases hp : pat.isPrefixOf (x :: (b ++ pat ++ a))
    · rw [if_pos hp]; rfl
    · rw [if_neg hp]
      have hrec := ih a
      cases hs : splitOnFirst pat (b ++ pat ++ a) with
      | none =>
        rw [hs] at hrec
        simp at hrec
      | some pr =>
        obtain ⟨pre, post⟩ := pr
        rfl

theorem containsSub_of_decomp {pat b a s : List Char} (h : s = b ++ pat ++ a) :
    containsSub pat s = true := by
  rw [h, containsSub]
  exact splitOnFirst_isSome pat b a

theorem containsSub_cons_false {pat : List Char} {c : Char} {s : List Char}
    (h : containsSub pat (c :: s) = false) : containsSub pat s = false := by
  rw [containsSub] at h ⊢
  rw [splitOnFirst] at h
  by_cases hp : pat.isPrefixOf (c :: s)
  · rw [if_pos hp] at h
    simp at h
  · rw [if_neg hp] at h
    cases hrec : splitOnFirst pat s with
    | none => simp
    | some pr =>
      obtain ⟨x, y⟩ := pr
      rw [hrec] at h
      simp at h

theorem closeLit_borderFree : borderFree closeLit := by
  rw [borderFree]
  decide

/-- If `pat` does not occur in `s`, the first occurrence of `pat` in
`s ++ pat` is the final one (for border-free patterns: no occurrence can
straddle the boundary). -/
theorem splitOnFirst_at_end {pat : List Char} (hne : pat ≠ []) (hbf : borderFree pat) :
    ∀ s, containsSub pat s = false → splitOnFirst pat (s ++ pat) = some (s, []) := by
  intro s
  induction s with
  | nil =>
    intro _
    rw [List.nil_append]
    cases pat with
    | nil => exact absurd rfl hne
    | cons p ps =>
      rw [splitOnFirst, if_pos (List.isPrefixOf_iff_prefix.mpr List.prefix_rfl)]
      simp [List.drop_length]
  | cons c s ih =>
    intro hno
    rw [List.cons_append, splitOnFirst]
    by_cases hp : pat.isPrefixOf (c :: (s ++ pat))
    · exfalso
      obtain ⟨t, ht⟩ := List.isPrefixOf_iff_prefix.mp hp
      have hXp : (c :: s) ++ pat = pat ++ t := by simpa using ht.symm
      by_cases hlen : pat.length ≤ (c :: s).length
      · have h1 : ((c :: s) ++ pat).take pat.length = (c :: s).take pat.length :=
          List.take_append_of_le_length hlen
        have h2 : (pat ++ t).take pat.length = pat := List.take_left _ _
        have h3 : (c :: s).take pat.length = pat := by rw [← h1, hXp, h2]
        have h4 : c :: s = pat ++ (c :: s).drop pat.length := by
          conv_lhs => rw [← List.take_append_drop pat.length (c :: s)]
          rw [h3]
        have h5 : c :: s = [] ++ pat ++ (c :: s).drop pat.length := by
          rw [List.nil_append]
          exact h4
        have := containsSub_of_decomp h5
        rw [this] at hno
        cases hno
      · push_neg at hlen
        have h1 : ((c :: s) ++ pat).take (c :: s).length = c :: s := List.take_left _ _
        have h2 : (pat ++ t).take (c :: s).length = pat.take (c :: s).length :=
          List.take_append_of_le_length (le_of_lt hlen)
        have h4 : ((c :: s) ++ pat).drop (c :: s).length = pat := List.drop_left _ _
        have h5 : (pat ++ t).drop (c :: s).length = pat.drop (c :: s).length ++ t :=
          List.drop_append_of_le_length (le_of_lt hlen)
        have h6 : pat = pat.drop (c :: s).length ++ t := by
          have h6a := congrArg (List.drop (c :: s).length) hXp
          rw [h4, h5] at h6a
          exact h6a
        have h7 : (pat.drop (c :: s).length).length = pat.length - (c :: s).length :=
          List.length_drop _ _
        have h8 := congrArg (List.take (pat.drop (c :: s).length).length) h6
        rw [List.take_left] at h8
        have h9 : pat.take (pat.length - (c :: s).length) = pat.drop (c :: s).length := by
          rw [← h7]
          exact h8
        exact hbf (c :: s).length hlen (by simp) h9.symm
    · rw [if_neg hp]
      have hrec := ih (containsSub_cons_false hno)
      rw [hrec]

theorem takeWhile_middle {p : Char → Bool} :
    ∀ (xs : List Char) (y : Char) (ys : List Char),
      (∀ x ∈ xs, p x = true) → p y = false →
      (xs ++ y :: ys).takeWhile p = xs ∧ (xs ++ y :: ys).dropWhile p = y :: ys := by
  intro xs
  induction xs with
  | nil =>
    intro y ys _ hy
    simp [List.takeWhile_cons, List.dropWhile_cons, hy]
  | cons x xs ih =>
    intro y ys hall hy
    have hx : p x = true := hall x (by simp)
    have hrec := ih y ys (fun z hz => hall z (by simp [hz])) hy
    simp [List.takeWhile_cons, List.dropWhile_cons, hx, hrec.1, hrec.2]

theorem matchAttr_eq_none {pat full : List Char} (h : containsSub pat full = false) :
    matchAttr pat full = none := by
  cases hs : splitOnFirst pat full with
  | none => simp [matchAttr, hs]
  | some pr =>
    rw [containsSub, hs] at h
    simp at h

end ArtifactExporter

namespace ArtifactExporter

/-! ## Orchestrator lemmas -/

theorem stepConv_processed (fetch : String → Except String FullConv) (total : Nat)
    (st : LoopSt) (conv : Conversation) :
    (stepConv fetch total st conv).processed = st.processed + 1 := by
  cases h : fetch conv.uuid with
  | error e => simp [stepConv, h]
  | ok full => simp [stepConv, h]

theorem stepConv_events (fetch : String → Except String FullConv) (total : Nat)
    (st : LoopSt) (conv : Conversation) :
    (stepConv fetch total st conv).events =
      st.events ++
      [Event.progress (st.processed + 1) total (nameOrUntitled conv.name),
       Event.fetchAttempt conv.uuid] ++
      (match fetch conv.uuid with
       | Except.error _ => []
       | Except.ok _ => [Event.delayEv]) := by
  cases h : fetch conv.uuid with
  | error e => simp [stepConv, h]
  | ok full => simp [stepConv, h]

theorem runLoop_spec (fetch : String → Except String FullConv) (total : Nat) :
    ∀ (convs : List Conversation) (st : LoopSt),
      (runLoop fetch total convs st).events =
        st.events ++ expectedEvents fetch total st.processed convs ∧
      (runLoop fetch total convs st).processed = st.processed + convs.length := by
  intro convs
  induction convs with
  | nil => intro st; simp [runLoop, expectedEvents]
  | cons c cs ih =>
    intro st
    have hrl : runLoop fetch total (c :: cs) st =
        runLoop fetch total cs (stepConv fetch total st c) := rfl
    rw [hrl]
    obtain ⟨he, hp⟩ := ih (stepConv fetch total st c)
    constructor
    · rw [he, stepConv_events, stepConv_processed, expectedEvents]
      simp [List.append_assoc]
    · rw [hp, stepConv_processed, List.length_cons]
      omega

theorem runExportJob_events_eq (convs : List Conversation)
    (fetch : String → Except String FullConv) :
    (runExportJob (Except.ok convs) fetch).events =
      (runLoop fetch convs.length convs initLoopSt).events := by
  rw [runExportJob]
  by_cases h : (runLoop fetch convs.length convs initLoopSt).totalArtifacts = 0
  · rw [if_pos h]
  · rw [if_neg h]

theorem runExportJob_trace (convs : List Conversation)
    (fetch : String → Except String FullConv) :
    (runExportJob (Except.ok convs) fetch).events =
      expectedEvents fetch convs.length 0 convs := by
  rw [runExportJob_events_eq]
  obtain ⟨he, _⟩ := runLoop_spec fetch convs.length convs initLoopSt
  rw [he]
  simp [initLoopSt]

theorem expectedEvents_countP_delay (fetch : String → Except String FullConv) (total : Nat) :
    ∀ (convs : List Conversation) (pc : Nat),
      (expectedEvents fetch total pc convs).countP isDelayEv =
        convs.countP (fun c => fetchOk (fetch c.uuid)) := by
  intro convs
  induction convs with
  | nil => intro pc; simp [expectedEvents]
  | cons c cs ih =>
    intro pc
    rw [expectedEvents]
    cases h : fetch c.uuid with
    | error e =>
      simp [List.countP_append, List.countP_cons, isDelayEv, fetchOk, h, ih (pc + 1)]
    | ok full =>
      simp [List.countP_append, List.countP_cons, isDelayEv, fetchOk, h, ih (pc + 1)]

theorem expectedEvents_filter_progress (fetch : String → Except String FullConv) (total : Nat) :
    ∀ (convs : List Conversation) (pc : Nat),
      (expectedEvents fetch total pc convs).filter isProgressEv =
        (convs.enumFrom pc).map
          (fun ic => Event.progress (ic.1 + 1) total (nameOrUntitled ic.2.name)) := by
  intro convs
  induction convs with
  | nil => intro pc; simp [expectedEvents]
  | cons c cs ih =>
    intro pc
    rw [expectedEvents, List.enumFrom_cons]
    cases h : fetch c.uuid with
    | error e =>
      simp [List.filter_append, List.filter_cons, isProgressEv, h, ih (pc + 1)]
    | ok full =>
      simp [List.filter_append, List.filter_cons, isProgressEv, h, ih (pc + 1)]

end ArtifactExporter

namespace ArtifactExporter

/-! ## Sanitization run lemmas -/

theorem collapseAux_allowed_id (allowed : Char → Bool) :
    ∀ l, (∀ c ∈ l, allowed c = true) → ∀ b, collapseAux allowed b l = l := by
  intro l
  induction l with
  | nil => intro _ b; rfl
  | cons c cs ih =>
    intro h b
    have hc : allowed c = true := h c (by simp)
    rw [collapseAux, if_pos hc, ih (fun z hz => h z (by simp [hz])) false]

theorem collapseAux_bad_run (allowed : Char → Bool) :
    ∀ run, (∀ c ∈ run, allowed c = false) →
      ∀ rest, collapseAux allowed true (run ++ rest) = collapseAux allowed true rest := by
  intro run
  induction run with
  | nil => intro _ rest; rfl
  | cons r rs ih =>
    intro h rest
    have hr : allowed r = false := h r (by simp)
    rw [List.cons_append, collapseAux, if_neg (by simp [hr]), if_pos rfl]
    exact ih (fun z hz => h z (by simp [hz])) rest

theorem splitOnFirst_self {pat : List Char} (rest : List Char) (h : pat ≠ []) :
    splitOnFirst pat (pat ++ rest) = some ([], rest) := by
  cases pat with
  | nil => exact absurd rfl h
  | cons p ps =>
    rw [List.cons_append, splitOnFirst]
    have hpre : (p :: ps).isPrefixOf (p :: (ps ++ rest)) = true :=
      List.isPrefixOf_iff_prefix.mpr (List.prefix_append (p :: ps) rest)
    rw [if_pos hpre]
    rw [show List.drop (p :: ps).length (p :: (ps ++ rest)) = rest from
      List.drop_left (p :: ps) rest]

end ArtifactExporter

namespace ArtifactExporter

/-! ## Claim theorems -/

/-- Claim C1: for every sequence of allocation calls made against one
registry, with any combination of colliding titles, languages and
namespaces, the returned archive paths are pairwise distinct, every
returned path is a member of the resulting registry, and the registry only
grows: the starting registry is contained in the final one and every
returned path was fresh at the time of its call. -/
theorem C1_allocation_paths_unique (reqs : List (String × String × String))
    (used : Finset String) :
    (runAllocs reqs used).1.Nodup ∧
    (∀ p ∈ (runAllocs reqs used).1, p ∈ (runAllocs reqs used).2) ∧
    used ⊆ (runAllocs reqs used).2 ∧
    (∀ p ∈ (runAllocs reqs used).1, p ∉ used) :=
  runAllocs_spec reqs used

/-- Concrete instantiation of the allocator uniqueness theorem: a freshly
allocated path is registered. -/
theorem C1_witness :
    ("F/a.py") ∈ (runAllocs [("a", "python", "F"), ("b", "text", "F")] ∅).2 :=
  (C1_allocation_paths_unique [("a", "python", "F"), ("b", "text", "F")] ∅).2.1
    ("F/a.py") (by decide)

/-- Claim C4 counterexample: the sanitizer collapses the run of two spaces
in the title into a single underscore, so it differs from the claimed
per-character replacement and does not preserve the title's length. -/
theorem C4_counterexample :
    sanitizeTitle ("a  b") = ("a_b") ∧
    specPerCharSanitize ("a  b") = ("a__b") ∧
    sanitizeTitle ("a  b") ≠ specPerCharSanitize ("a  b") ∧
    (sanitizeTitle ("a  b")).length ≠ ("a  b" : String).length := by
  decide

/-- Claim C4 (amended): sanitization leaves titles made of allowed
characters unchanged, and replaces every maximal run of k ≥ 1 consecutive
disallowed characters between allowed characters by exactly one
underscore, not k. -/
theorem C4_sanitize_collapses_runs :
    (∀ s : String, (∀ c ∈ s.data, allowedTitleChar c = true) → sanitizeTitle s = s) ∧
    (∀ (a b : Char) (run : List Char), allowedTitleChar a = true →
      allowedTitleChar b = true → run ≠ [] →
      (∀ c ∈ run, allowedTitleChar c = false) →
      sanitizeTitle ⟨a :: (run ++ [b])⟩ = ⟨[a, '_', b]⟩) := by
  constructor
  · intro s h
    apply String.ext
    exact collapseAux_allowed_id allowedTitleChar s.data h false
  · intro a b run ha hb hne hbad
    apply String.ext
    show collapseRuns allowedTitleChar (a :: (run ++ [b])) = [a, '_', b]
    rw [collapseRuns, collapseAux, if_pos ha]
    cases run with
    | nil => exact absurd rfl hne
    | cons r rs =>
      have hr : allowedTitleChar r = false := hbad r (by simp)
      rw [List.cons_append, collapseAux, if_neg (by simp [hr]), if_neg (by simp)]
      rw [collapseAux_bad_run allowedTitleChar rs (fun z hz => hbad z (by simp [hz])) [b]]
      rw [collapseAux, if_pos hb]
      rfl

/-- Concrete instantiation of the amended sanitization theorem. -/
theorem C4_witness :
    sanitizeTitle ("a.b") = ("a.b") ∧
    sanitizeTitle ⟨'a' :: ([' ', '\t'] ++ ['b'])⟩ = ⟨['a', '_', 'b']⟩ :=
  ⟨C4_sanitize_collapses_runs.1 ("a.b") (by decide),
   C4_sanitize_collapses_runs.2 'a' 'b' [' ', '\t'] (by decide) (by decide)
     (by decide) (by decide)⟩

/-- Claim C3: the three historical message body shapes (a plain string, a
content-block list whose text fragments concatenate in order, and the
legacy direct text field reached when `content` is some other truthy
value) carrying the same tagged text yield structurally equal extraction
results; the block list takes precedence over any legacy text field on the
same message. -/
theorem C3_format_drift (bs : List ContentBlock) (legacy1 legacy2 : Option String) :
    messageArtifacts (strMsg (blockConcat bs) legacy1) =
      messageArtifacts (arrMsg bs legacy2) ∧
    messageArtifacts (arrMsg bs legacy2) =
      messageArtifacts (objMsg (some (blockConcat bs))) := by
  by_cases h : blockConcat bs = ""
  · constructor <;>
      simp [messageArtifacts, strMsg, arrMsg, objMsg, contentTruthy, messageTextOf,
        optTruthy, h]
  · constructor <;>
      simp [messageArtifacts, strMsg, arrMsg, objMsg, contentTruthy, messageTextOf,
        optTruthy, h]

end ArtifactExporter

namespace ArtifactExporter

/-- Claim C2: for every job whose index fetch succeeds, the event trace
is, entry by entry, a progress event carrying `current` equal to the
entry's 1-based position and `total` equal to the index length,
immediately followed by that conversation's fetch attempt — so progress is
emitted before every fetch, and a failed fetch never aborts the iteration
(each later entry still receives its progress and fetch events).
Moreover, in the concrete three-conversation scenario where only the
second fetch throws, the job ends with success, `totalConversations` 3,
and counts reflecting only conversations 1 and 3. -/
theorem C2_progress_before_fetch_and_partial_failure :
    (∀ (convs : List Conversation) (fetch : String → Except String FullConv),
        (runExportJob (Except.ok convs) fetch).events =
          expectedEvents fetch convs.length 0 convs) ∧
    (runExportJob (Except.ok demoIndex) demoFetch).response =
      { success := true, error := none, artifactCount := 2,
        conversationCount := 2, totalConversations := 3 } :=
  ⟨fun convs fetch => runExportJob_trace convs fetch, by decide⟩

/-- Claim C7 counterexample: with a two-entry index whose first fetch
fails, the trace contains no pacing delay between the first entry's events
and the second entry's progress event; the only delay follows the
successful second entry.  This refutes the claim that the pacing wait
occurs between every pair of consecutive entries. -/
theorem C7_counterexample :
    (runExportJob (Except.ok failIndex) failFirstFetch).events =
      [Event.progress 1 2 ("A"), Event.fetchAttempt ("v1"),
       Event.progress 2 2 ("B"), Event.fetchAttempt ("v2"), Event.delayEv] ∧
    Event.delayEv ∉ ((runExportJob (Except.ok failIndex) failFirstFetch).events.take 3) := by
  decide

/-- Claim C7 (amended): the pacing delay is awaited only after entries
whose fetch succeeded: the number of delay suspensions in a job's trace
equals the number of index entries with a successful fetch, not the number
of entries, so a failed entry is followed by the next entry with no
intervening delay. -/
theorem C7_delay_only_after_success (convs : List Conversation)
    (fetch : String → Except String FullConv) :
    ((runExportJob (Except.ok convs) fetch).events.countP isDelayEv) =
      convs.countP (fun c => fetchOk (fetch c.uuid)) := by
  rw [runExportJob_trace]
  exact expectedEvents_countP_delay fetch convs.length convs 0

/-- Claim C8: a job whose iteration completes with zero artifacts responds
with `success := false` and the fixed non-empty error message, and the
archive finalization/download path is never entered. -/
theorem C8_zero_artifacts_failure (convs : List Conversation)
    (fetch : String → Except String FullConv)
    (h : (runLoop fetch convs.length convs initLoopSt).totalArtifacts = 0) :
    (runExportJob (Except.ok convs) fetch).response.success = false ∧
    (runExportJob (Except.ok convs) fetch).response.error = some noArtifactsMsg ∧
    noArtifactsMsg ≠ "" ∧
    (runExportJob (Except.ok convs) fetch).finalized = false := by
  have hjob : runExportJob (Except.ok convs) fetch =
      { events := (runLoop fetch convs.length convs initLoopSt).events,
        response := { success := false, error := some noArtifactsMsg,
                      artifactCount := 0, conversationCount := 0,
                      totalConversations := 0 },
        finalized := false } := by
    rw [runExportJob, if_pos h]
  rw [hjob]
  exact ⟨rfl, rfl, by decide, rfl⟩

/-- Concrete instantiation of the zero-artifact failure theorem on the
empty index. -/
theorem C8_witness :
    (runExportJob (Except.ok ([] : List Conversation))
        (fun _ => Except.error ("e"))).response.success = false ∧
    (runExportJob (Except.ok ([] : List Conversation))
        (fun _ => Except.error ("e"))).finalized = false := by
  have h := C8_zero_artifacts_failure ([] : List Conversation)
    (fun _ => Except.error ("e")) (by decide)
  exact ⟨h.1, h.2.2.2⟩

/-- Claim C10: the progress events of a job are numbered consecutively:
filtering the trace to progress events yields exactly one event per index
entry, in index order, the k-th carrying `current = k` and `total` equal
to the index length, regardless of later fetch or processing failures. -/
theorem C10_progress_numbering (convs : List Conversation)
    (fetch : String → Except String FullConv) :
    ((runExportJob (Except.ok convs) fetch).events.filter isProgressEv) =
      convs.enum.map
        (fun ic => Event.progress (ic.1 + 1) convs.length (nameOrUntitled ic.2.name)) := by
  rw [runExportJob_trace]
  exact expectedEvents_filter_progress fetch convs.length convs 0

end ArtifactExporter

namespace ArtifactExporter

/-- Claim C9: the title and language lookups scan the entire matched
region, not only the opening tag: an opening tag with no attributes whose
body contains `title="x"` and `language="go"` is extracted with title `x`
and language `go` rather than the defaults. -/
theorem C9_attr_scan_whole_region :
    extractArtifacts ("<antArtifact>intro title=\"x\" language=\"go\" tail</antArtifact>") =
      [{ title := "x", language := "go",
         content := "intro title=\"x\" language=\"go\" tail" }] := by
  decide

/-- Claim C5 counterexample: a matched region whose opening tag carries no
attributes but whose body contains `title="x"` is extracted with title
`x`, not the claimed default `Untitled`. -/
theorem C5_counterexample :
    extractArtifacts ("<antArtifact>see title=\"x\" here</antArtifact>") =
      [{ title := "x", language := "txt", content := "see title=\"x\" here" }] ∧
    ("x" : String) ≠ ("Untitled") := by
  decide

/-- Claim C5 (amended): the defaults are keyed to the whole matched region
rather than the opening tag: a region in whose full text `title="` never
occurs is extracted with title `Untitled`, and one in whose full text
`language="` never occurs with language `txt`; in particular a tag with no
attributes and a body free of both patterns yields both defaults, with the
trimmed body as content. -/
theorem C5_defaults_amended (attrs body : String)
    (hAttrs : attrs.data.all (fun c => c != '>') = true)
    (hBody : containsSub closeLit body.data = false)
    (hTitle : containsSub titleLit
      (("<antArtifact" ++ attrs ++ ">" ++ body ++ "</antArtifact>") : String).data = false)
    (hLang : containsSub langLit
      (("<antArtifact" ++ attrs ++ ">" ++ body ++ "</antArtifact>") : String).data = false) :
    extractArtifacts ("<antArtifact" ++ attrs ++ ">" ++ body ++ "</antArtifact>") =
      [{ title := "Untitled", language := "txt", content := trimS body }] := by
  have hgt : ((">" : String)).data = ['>'] := rfl
  have hdata : (("<antArtifact" ++ attrs ++ ">" ++ body ++ "</antArtifact>") : String).data =
      openLit ++ (attrs.data ++ '>' :: (body.data ++ closeLit)) := by
    simp [String.data_append, openLit, closeLit, hgt, List.append_assoc]
  have hsplit1 : splitOnFirst openLit
      (openLit ++ (attrs.data ++ '>' :: (body.data ++ closeLit))) =
      some ([], attrs.data ++ '>' :: (body.data ++ closeLit)) :=
    splitOnFirst_self _ (by decide)
  have hAttrs2 : ∀ c ∈ attrs.data, (fun c => c != '>') c = true :=
    List.all_eq_true.mp hAttrs
  have htd := takeWhile_middle attrs.data '>' (body.data ++ closeLit) hAttrs2 (by decide)
  have hsplit2 : splitOnFirst closeLit (body.data ++ closeLit) = some (body.data, []) :=
    splitOnFirst_at_end (by decide) closeLit_borderFree body.data hBody
  have hfull : openLit ++ attrs.data ++ '>' :: (body.data ++ closeLit) =
      openLit ++ (attrs.data ++ '>' :: (body.data ++ closeLit)) := by
    rw [List.append_assoc]
  have hmt : matchAttr titleLit (openLit ++ attrs.data ++ '>' :: (body.data ++ closeLit)) =
      none := by
    apply matchAttr_eq_none
    rw [hfull, ← hdata]
    exact hTitle
  have hml : matchAttr langLit (openLit ++ attrs.data ++ '>' :: (body.data ++ closeLit)) =
      none := by
    apply matchAttr_eq_none
    rw [hfull, ← hdata]
    exact hLang
  rw [extractArtifacts, hdata, scanArtifacts]
  rw [hsplit1]
  simp only [htd.1, htd.2, hsplit2, hmt, hml, scanArtifacts_nil]
  rfl

/-- Concrete instantiation of the amended defaulting theorem: a tag with
no attributes and a plain body yields both defaults. -/
theorem C5_witness :
    extractArtifacts ("<antArtifact" ++ "" ++ ">" ++ "hello" ++ "</antArtifact>") =
      [{ title := "Untitled", language := "txt", content := trimS ("hello") }] :=
  C5_defaults_amended ("") ("hello") (by decide) (by decide) (by decide) (by decide)

/-- Claim C6: a text consisting of an opening artifact tag, then a nested
occurrence of the opening tag, then a single closing tag produces exactly
one artifact whose content extends to the first closing tag, the nested
opening tag being kept as plain content of the outer body (non-recursive,
first-close-wins matching). -/
theorem C6_nested_first_close (b1 b2 : String)
    (h : containsSub closeLit ((b1 ++ "<antArtifact>" ++ b2) : String).data = false) :
    (extractArtifacts
        ("<antArtifact>" ++ b1 ++ "<antArtifact>" ++ b2 ++ "</antArtifact>")).map
        (fun a => a.content) = [trimS (b1 ++ "<antArtifact>" ++ b2)] := by
  have hdata : (("<antArtifact>" ++ b1 ++ "<antArtifact>" ++ b2 ++ "</antArtifact>") : String).data =
      openLit ++ ('>' :: (((b1 ++ "<antArtifact>" ++ b2) : String).data ++ closeLit)) := by
    simp [String.data_append, openLit, closeLit, List.append_assoc]
  have hsplit1 : splitOnFirst openLit
      (openLit ++ ('>' :: (((b1 ++ "<antArtifact>" ++ b2) : String).data ++ closeLit))) =
      some ([], '>' :: (((b1 ++ "<antArtifact>" ++ b2) : String).data ++ closeLit)) :=
    splitOnFirst_self _ (by decide)
  have htd := @takeWhile_middle (fun c => c != '>') ([] : List Char) '>'
    (((b1 ++ "<antArtifact>" ++ b2) : String).data ++ closeLit)
    (by intro x hx; cases hx) (by decide)
  have hsplit2 : splitOnFirst closeLit
      (((b1 ++ "<antArtifact>" ++ b2) : String).data ++ closeLit) =
      some (((b1 ++ "<antArtifact>" ++ b2) : String).data, []) :=
    splitOnFirst_at_end (by decide) closeLit_borderFree _ h
  rw [extractArtifacts, hdata, scanArtifacts]
  rw [hsplit1]
  simp only [List.nil_append] at htd
  simp only [htd.1, htd.2, hsplit2, scanArtifacts_nil]
  simp [trimS]

/-- Concrete instantiation of the nested-tag theorem. -/
theorem C6_witness :
    containsSub closeLit ((("A" : String) ++ "<antArtifact>" ++ "B").data) = false ∧
    (extractArtifacts
        ("<antArtifact>" ++ "A" ++ "<antArtifact>" ++ "B" ++ "</antArtifact>")).map
        (fun a => a.content) = [trimS (("A" : String) ++ "<antArtifact>" ++ "B")] :=
  ⟨by decide, C6_nested_first_close ("A") ("B") (by decide)⟩

end ArtifactExporter
